import Mathlib

/-!
Verification of the locomote-sh/pipeline core against its specification.

The development shallowly embeds the five source files of the repository:

* `src/unnamed/part_000` — the record/field parser (`fieldParser`, `lineParser`);
* `src/unnamed/part_001` — `StepResult` (cache check, tee output, HTTP send);
* `src/lib/pipeline.js`  — `Step` and `Pipeline`;
* `src/lib/hooks.js`     — the hook registry;
* `src/lib/transformers.js` — `recordTransformer` / `lineTransformer` / `jsonlTransformer`.

Bytes are modelled as natural numbers, buffers and stream chunks as lists of
bytes, and asynchronous functions as pure Lean functions.  Where the order of
asynchronous callbacks matters (the promise chain inside `fieldParser`) the
event-loop behaviour is made explicit: input events (data chunks, then the
close event) are processed one at a time, and the microtask queue (the promise
continuation chain) is fully drained between consecutive events.
-/

/-- A byte, as stored in a Node `Buffer`. -/
abbrev Byte := Nat

/-- The `NEWLINE` constant of both `part_000` and `transformers.js`. -/
def NEWLINE : Byte := 0x0A

/-!
## Record parser (`src/unnamed/part_000`, `fieldParser`)

`fieldParser(ins, process, separator)` keeps one growing buffer.  Its `append`
handler is invoked with a data chunk on each `data` event and with no argument
on the `close` event.  The scanning loop inside `append` is

    let i, j, end = buffer.length - 1;
    for( i = 0, j = i; j < buffer.length; j++ ) {
        if( buffer[j] == separator || (isComplete && j == end) ) {
            let line = buffer.slice( i, j ).toString();
            ... schedule process( line ) ...
            i = j + 1;
        }
    }

`scanList` is that loop, written as structural recursion over the bytes not
yet examined: `cur` is `buffer.slice(i, j)` (the bytes of the current record
accumulated since the last cut point) and the list argument is
`buffer.drop j`.  The loop guard `j < buffer.length` becomes the base case;
`buffer[j] == separator || (isComplete && j == end)` becomes
`b = sep ∨ (isComplete = true ∧ rest = [])`; the emitted line is
`buffer.slice(i, j)`, i.e. `cur` — faithfully excluding the byte at
position `j` in the end-of-input case as well.  The second component of the
result is `buffer.slice(i)` at loop exit. -/
def scanList (sep : Byte) (isComplete : Bool) :
    List Byte → List Byte → List (List Byte) × List Byte
  | cur, [] => ([], cur)
  | cur, b :: rest =>
    if b = sep ∨ (isComplete = true ∧ rest = []) then
      let p := scanList sep isComplete [] rest
      (cur :: p.1, p.2)
    else
      scanList sep isComplete (cur ++ [b]) rest

/-- The mutable state of one `fieldParser` run: the `buffer` variable and the
`processing` flag (`part_000`, lines 30-32). -/
structure PState where
  buffer : List Byte
  processing : Bool
deriving DecidableEq, Repr

/-- The `append` handler of `fieldParser` (`part_000`, lines 36-80), restricted
to its effect on the parser state and to the sequence of records it schedules
for processing.  `data = some c` models a `data` event delivering chunk `c`
(a `Buffer`, which in JavaScript is truthy even when empty); `data = none`
models the `close` event, for which `isComplete = !data` holds.  Records are
returned in the order their `process` calls are chained onto `pending`. -/
def append (sep : Byte) (st : PState) (data : Option (List Byte)) :
    PState × List (List Byte) :=
  if st.processing = false then (st, [])
  else
    let buffer := st.buffer ++ data.getD []
    let isComplete := data.isNone
    let p := scanList sep isComplete [] buffer
    if isComplete then
      (⟨buffer, false⟩, p.1)
    else
      (⟨p.2, true⟩, p.1)

/-- Deliver a sequence of data chunks to `append`, collecting the scheduled
records in order. -/
def runData (sep : Byte) (st : PState) (chunks : List (List Byte)) :
    PState × List (List Byte) :=
  chunks.foldl
    (fun acc c =>
      let r := append sep acc.1 (some c)
      (r.1, acc.2 ++ r.2))
    (st, [])

/-- The full sequence of records scheduled by `fieldParser` for an input
delivered as `chunks` (each a `data` event) followed by the `close` event,
assuming every `process` call succeeds. -/
def parseRecords (sep : Byte) (chunks : List (List Byte)) : List (List Byte) :=
  let r := runData sep ⟨[], true⟩ chunks
  let c := append sep r.1 none
  r.2 ++ c.2

/-!
### Specification-side splitting

`splitTerm sep bs = (fields, rem)` where `fields` are the separator-terminated
fields of `bs` in order and `rem` is the remainder after the last separator
(the whole of `bs` when it contains no separator).  This is the reference
function used to characterise what `append` emits. -/
def splitTerm (sep : Byte) : List Byte → List (List Byte) × List Byte
  | [] => ([], [])
  | b :: rest =>
    let p := splitTerm sep rest
    if b = sep then ([] :: p.1, p.2)
    else
      match p.1 with
      | [] => ([], b :: p.2)
      | f :: fs => ((b :: f) :: fs, p.2)

/-- What the scanning loop of `append` emits over a whole parse, expressed as
a function of the concatenated input: the separator-terminated fields,
followed — when a nonempty unterminated remainder is left at `close` time —
by that remainder with its last byte removed (the `slice(i, j)` of the
`j == end` branch stops one byte short of the end of the buffer). -/
def parseSpec (sep : Byte) (bs : List Byte) : List (List Byte) :=
  (splitTerm sep bs).1 ++
    (if (splitTerm sep bs).2 = [] then [] else [(splitTerm sep bs).2.dropLast])

/-!
## Promise-chain semantics of `fieldParser` (error handling)

Each scheduled record is chained onto `pending`:

    pending = pending.then( () => {
        try { return process( line ); }
        catch( e ) {
            processing = false;
            pending = pending.then( () => reject( e ) );
        }
    });

and on completion (`part_000`, lines 70-75) the handler sets
`processing = false` and attaches `pending.then( () => resolve() )` without
reassigning `pending`.  The machine below makes the resulting behaviour
explicit for the standard Node event ordering: each `data` event (and finally
the `close` event) runs its handler to completion, after which the microtask
queue is drained before the next event.

* The `try`/`catch` around `process(line)` only catches synchronous throws;
  a rejected promise returned by `process` rejects the chain itself, so every
  continuation attached with a fulfilment-only `.then` afterwards is skipped.
* A caught synchronous throw leaves the chain fulfilled (the callback
  recovered), so continuations for records that were already scheduled still
  run; the `reject` continuation is attached at the then-current tip of
  `pending`, i.e. after all records scheduled so far in the same drain, and
  runs only if that tip is fulfilled.
* `resolve` is attached by the close handler after the trailing records of
  that event, before any `reject` continuation created while draining them.
-/

/-- Outcome of one call of the caller-supplied `process` function: success,
a synchronous throw carrying error `e`, or an asynchronous rejection
carrying error `e`. -/
inductive POutcome where
  | ok
  | sthrow (e : Nat)
  | areject (e : Nat)
deriving DecidableEq, Repr

/-- State of one `fieldParser` run including the promise machinery:
`ps` is the buffer/processing state, `chain` the settled state of the tip of
the `pending` chain (`none` = fulfilled, `some e` = rejected with `e`),
`outer` the state of the promise returned by `fieldParser`
(`none` = unsettled, `some none` = resolved, `some (some e)` = rejected
with `e`), and `calls` the records actually passed to `process`, in order. -/
structure Machine where
  ps : PState
  chain : Option Nat
  outer : Option (Option Nat)
  calls : List (List Byte)
deriving DecidableEq, Repr

/-- Settling is first-wins: `resolve`/`reject` after the promise has settled
is a no-op. -/
def settleOuter (m : Machine) (v : Option Nat) : Machine :=
  match m.outer with
  | some _ => m
  | none => { m with outer := some v }

/-- Run the chained continuation for one scheduled record.  If the chain is
already rejected the fulfilment callback is skipped and `process` is not
called.  Otherwise `process` runs: a synchronous throw is caught, setting
`processing = false` and queueing a `reject e` continuation (returned as
`some e`); an asynchronous rejection rejects the chain. -/
def drainRecord (process : List Byte → POutcome) (m : Machine) (r : List Byte) :
    Machine × Option Nat :=
  match m.chain with
  | some _ => (m, none)
  | none =>
    match process r with
    | .ok => ({ m with calls := m.calls ++ [r] }, none)
    | .areject e => ({ m with calls := m.calls ++ [r], chain := some e }, none)
    | .sthrow e =>
      ({ m with calls := m.calls ++ [r], ps := ⟨m.ps.buffer, false⟩ }, some e)

/-- Drain the continuations of a list of scheduled records, collecting the
queued `reject` continuations in order. -/
def drainList (process : List Byte → POutcome) (m : Machine)
    (recs : List (List Byte)) : Machine × List Nat :=
  recs.foldl
    (fun acc r =>
      let p := drainRecord process acc.1 r
      (p.1, acc.2 ++ p.2.toList))
    (m, [])

/-- Fire the `reject e` continuations queued during one drain.  They were all
attached at the tip of `pending` as fulfilment-only callbacks, so they run
(in order, the first settling the promise) exactly when the tip of the chain
is fulfilled. -/
def fireRejects (m : Machine) (throws : List Nat) : Machine :=
  match m.chain with
  | some _ => m
  | none =>
    match throws with
    | [] => m
    | e :: _ => settleOuter m (some e)

/-- One `data` event delivering chunk `c`, followed by a full microtask
drain. -/
def stepData (sep : Byte) (process : List Byte → POutcome) (m : Machine)
    (c : List Byte) : Machine :=
  let a := append sep m.ps (some c)
  let d := drainList process { m with ps := a.1 } a.2
  fireRejects d.1 d.2

/-- The `close` event followed by a full microtask drain.  When the handler
still runs (`processing` was true) it attaches `resolve` at the tip of the
chain after scheduling the trailing records; `resolve` therefore fires before
any `reject` continuation queued while draining those records, and only if
the tip is fulfilled. -/
def stepClose (sep : Byte) (process : List Byte → POutcome) (m : Machine) :
    Machine :=
  if m.ps.processing = false then m
  else
    let a := append sep m.ps none
    let d := drainList process { m with ps := a.1 } a.2
    let m' :=
      match d.1.chain with
      | some _ => d.1
      | none => settleOuter d.1 none
    fireRejects m' d.2

/-- Run a whole `fieldParser` invocation: the data chunks in order, then the
close event, with the microtask queue drained between events. -/
def runParser (sep : Byte) (process : List Byte → POutcome)
    (chunks : List (List Byte)) : Machine :=
  stepClose sep process (chunks.foldl (stepData sep process) ⟨⟨[], true⟩, none, none, []⟩)

/-!
## Step / StepResult / Pipeline (`src/lib/pipeline.js`, `src/unnamed/part_001`)

A `Step` holds a processing function, an optional cache-path template and the
previous step (`pipeline.js`, lines 35-39).  Step functions are identified by
a natural number; the path-template evaluator `TT.eval` is an external
collaborator, passed in as `resolve`; the filesystem-existence check `exists`
is passed in as `fs`.  `Vars` is the type of invocation variables.
-/

/-- The `Step` chain (`pipeline.js`): `mk fn cachePath prevStep`. -/
inductive Step where
  | mk (fn : Nat) (cachePath : Option String) (prev : Option Step)

/-- The streams a `StepResult.readable()` call can produce: a read stream on
the existing cache file (`FS.createReadStream(this._path)`, cache hit), or the
`Through` stream built by `_output()` — a tee onto the cache file when a path
is configured, a pure pass-through otherwise. -/
inductive RStream where
  | fileRead (path : String)
  | through (cachePath : Option String)
deriving DecidableEq, Repr

/-- Combined embedding of `Step.invoke`/`Step.readable` (`pipeline.js`, lines
44-57) and `StepResult._cached`/`_output`/`readable` (`part_001`, lines 66-148),
with the external collaborators `fs` (file existence) and `resolve` (path
template evaluation) explicit.  Besides the produced stream it returns the
identifiers of every step function invoked, in invocation order: on a cache
hit `readable()` returns `FS.createReadStream(path)` at once, touching neither
`this._fn` nor `this._input`; on a cache miss it first obtains (and pauses)
the upstream readable — recursively invoking the upstream steps — then builds
the output stream and calls `this._fn(vars, outs, ins)`. -/
def Step.readableT {Vars : Type} (fs : String → Bool)
    (resolve : String → Vars → String) (vars : Vars) :
    Step → RStream × List Nat
  | .mk f cachePath prev =>
    let path := cachePath.map (fun t => resolve t vars)
    match path with
    | some p =>
      if fs p then
        (.fileRead p, [])
      else
        let up :=
          match prev with
          | none => ([] : List Nat)
          | some ps => (Step.readableT fs resolve vars ps).2
        (.through (some p), up ++ [f])
    | none =>
      let up :=
        match prev with
        | none => ([] : List Nat)
        | some ps => (Step.readableT fs resolve vars ps).2
      (.through none, up ++ [f])

/-!
## Tee output (`src/unnamed/part_001`, `StepResult._output`, lines 81-113)

With a cache path configured, `_output()` opens a write stream `fouts` on the
cache file and returns

    Through(
        function write( data ) { fouts.write( data ); this.queue( data ); },
        function end()         { fouts.close();      this.queue( null ); });

so every chunk written to the sink is appended to the cache file and queued,
unchanged and in the same order, for the downstream reader.
-/

/-- State of the tee: bytes written to the cache file, chunks queued for the
downstream reader, and whether the cache file has been closed. -/
structure TeeState where
  fileBytes : List Byte
  downstream : List (List Byte)
  fileClosed : Bool
deriving DecidableEq, Repr

/-- The `write` callback of the tee. -/
def teeWrite (st : TeeState) (d : List Byte) : TeeState :=
  { st with
    fileBytes := st.fileBytes ++ d
    downstream := st.downstream ++ [d] }

/-- The `end` callback of the tee (`fouts.close(); this.queue(null)`). -/
def teeEnd (st : TeeState) : TeeState :=
  { st with fileClosed := true }

/-- Drive the tee sink of a cache-miss `StepResult` with the chunks the step
function writes, then end it: the state after the downstream reader has fully
drained the stream. -/
def runTee (ws : List (List Byte)) : TeeState :=
  teeEnd (ws.foldl teeWrite ⟨[], [], false⟩)

/-!
## Hook registry (`src/lib/hooks.js`)

Hooks are stored under `Hooks[ns][`${stage}-${name}`]` as an ordered array.
The registry is modelled as a list of `(ns, id, hook)` entries in registration
order, with `id = stage ++ "-" ++ name`; a hook is an (asynchronous, here
pure) function `(value, vars) → value`.  `Value` and `Vars` are type
parameters.
-/

/-- The hook registry contents. -/
abbrev Registry (Value Vars : Type) :=
  List (String × String × (Value → Vars → Value))

/-- The key `${stage}-${name}` under which hooks are stored in a namespace. -/
def hookId (stage name : String) : String := stage ++ "-" ++ name

/-- `registerHook(ns, stage, name, hook)` (`hooks.js`, lines 36-49): appends
the hook to the list registered under `(ns, stage-name)`. -/
def registerHook {Value Vars : Type} (reg : Registry Value Vars)
    (ns stage name : String) (hook : Value → Vars → Value) :
    Registry Value Vars :=
  reg ++ [(ns, hookId stage name, hook)]

/-- The ordered list `Hooks[ns][id]` of hooks registered under a key. -/
def lookupHooks {Value Vars : Type} (reg : Registry Value Vars)
    (ns id : String) : List (Value → Vars → Value) :=
  (reg.filter (fun e => e.1 == ns && e.2.1 == id)).map (fun e => e.2.2)

/-- `getCallHooks(ns, stage, name)` (`hooks.js`, lines 58-79): no hooks →
the identity `value => value`; exactly one → that hook itself; several → a
function awaiting each hook in registration order, threading the value and
passing the same `vars` to every hook. -/
def getCallHooks {Value Vars : Type} (reg : Registry Value Vars)
    (ns stage name : String) : Value → Vars → Value :=
  match lookupHooks reg ns (hookId stage name) with
  | [] => fun value _ => value
  | [h] => h
  | hs => fun value vars => hs.foldl (fun v hook => hook v vars) value

/-!
## JavaScript values and `JSON.stringify`

The transformer's serialization branches on `result !== undefined`,
`typeof result !== 'string'` and `Array.isArray(result)`, and otherwise calls
`JSON.stringify`.  JavaScript values are modelled by `JSVal`; `stringify`
follows `JSON.stringify` on this fragment (an `undefined` array element
serializes as `null`, an object property with `undefined` value is omitted).
`stringify .undef` is never reached by the transformer, which filters
`undefined` beforehand.
-/

/-- The fragment of JavaScript values the transformer handles. -/
inductive JSVal where
  | undef
  | null
  | bool (b : Bool)
  | num (n : Int)
  | str (s : String)
  | arr (xs : List JSVal)
  | obj (fields : List (String × JSVal))

/-- `result === undefined`. -/
def JSVal.isUndef : JSVal → Bool
  | .undef => true
  | _ => false

/-- `typeof result === 'string'`. -/
def JSVal.isString : JSVal → Bool
  | .str _ => true
  | _ => false

/-- `Array.isArray(result)`. -/
def JSVal.isArray : JSVal → Bool
  | .arr _ => true
  | _ => false

/-- The elements of an array value (used only under `Array.isArray`). -/
def JSVal.elems : JSVal → List JSVal
  | .arr xs => xs
  | _ => []

/-- The string payload of a string value (used only under
`typeof === 'string'`). -/
def JSVal.asString : JSVal → String
  | .str s => s
  | _ => ""

/-- JSON string escaping for one character (the common escapes; other
printable characters pass through unchanged). -/
def jsonEscapeChar (c : Char) : String :=
  if c = '"' then "\\\""
  else if c = '\\' then "\\\\"
  else if c = '\n' then "\\n"
  else if c = '\t' then "\\t"
  else if c = '\x0d' then "\\r"
  else String.mk [c]

/-- A JSON string literal: quoted and escaped. -/
def jsonQuote (s : String) : String :=
  "\"" ++ String.join (s.data.map jsonEscapeChar) ++ "\""

mutual

/-- `JSON.stringify` on the modelled fragment. -/
def stringify : JSVal → String
  | .undef => "undefined"
  | .null => "null"
  | .bool b => if b then "true" else "false"
  | .num n => toString n
  | .str s => jsonQuote s
  | .arr xs => "[" ++ String.intercalate "," (elemStrings xs) ++ "]"
  | .obj fields => "\x7b" ++ String.intercalate "," (fieldStrings fields) ++ "\x7d"

/-- Array elements: `undefined` becomes `null`. -/
def elemStrings : List JSVal → List String
  | [] => []
  | x :: rest =>
    (if x.isUndef then "null" else stringify x) :: elemStrings rest

/-- Object properties: `undefined`-valued properties are omitted. -/
def fieldStrings : List (String × JSVal) → List String
  | [] => []
  | (k, v) :: rest =>
    if v.isUndef then fieldStrings rest
    else (jsonQuote k ++ ":" ++ stringify v) :: fieldStrings rest

end

/-!
## Transformer serialization (`src/lib/transformers.js`, `recordTransformer`)

The per-record `process` function of `recordTransformer` ends with
(`transformers.js`, lines 61-80):

    if( result !== undefined ) {
        if( multiValue && Array.isArray( result ) ) {
            result.forEach( item => {
                if( item !== undefined ) {
                    if( typeof item !== 'string' ) { item = JSON.stringify( item ); }
                    outs.write( item );
                    outs.write('\n');
                }
            });
        }
        else {
            if( typeof result !== 'string' ) { result = JSON.stringify( result ); }
            outs.write( result );
            outs.write('\n');
        }
    }

`writeResult` returns the list of strings passed to `outs.write`, in order.
-/

/-- The string/JSON rule: a string is used verbatim, anything else is
JSON-encoded. -/
def strOrJson (v : JSVal) : String :=
  if v.isString then v.asString else stringify v

/-- The writes performed for one (post-hook) record result. -/
def writeResult (multiValue : Bool) (result : JSVal) : List String :=
  if result.isUndef then []
  else if multiValue && result.isArray then
    (result.elems.map
      (fun item => if item.isUndef then [] else [strOrJson item, "\n"])).flatten
  else
    [strOrJson result, "\n"]

/-!
## Transformer separators (`src/lib/transformers.js`)

`recordTransformer` destructures its options as

    const { multiValue = false, separator = 0x0 } = opts;

so with no separator option the record parser is driven with `0x0`.
`lineTransformer` (lines 107-110) sets `const separator = NEWLINE` and passes
it on explicitly.
-/

/-- The separator `recordTransformer` passes to the record parser, given the
`separator` member of its options object (`none` when absent). -/
def recordTransformerSep (optSeparator : Option Byte) : Byte :=
  optSeparator.getD 0x0

/-- The `separator` option `lineTransformer` supplies to `recordTransformer`. -/
def lineTransformerSeparatorArg : Option Byte := some NEWLINE

/-- The records the record parser produces when driven by
`recordTransformer` with the given `separator` option on the given input
chunks. -/
def recordTransformerParse (optSeparator : Option Byte)
    (chunks : List (List Byte)) : List (List Byte) :=
  parseRecords (recordTransformerSep optSeparator) chunks

/-!
## HTTP delivery (`src/unnamed/part_001`, `StepResult.send`, lines 164-213)

`send` attaches `data`/`end`/`error` listeners on the result stream.  The
model processes the stream's event trace in order and records the effects on
the response object `res`: the statuses sent with `res.sendStatus`, whether
headers were set (`res.set(headers)`), the chunks written, and whether
`res.end()` was called.  `Log.error` on the error path is an external logging
collaborator with no effect on the response.  Note the error branch

    if( err.code == 'ENOENT' ) { res.sendStatus( 404 ); }
    // Send a 500 status code.
    res.sendStatus( 500 );

which, lacking a `return`, falls through to the 500 after sending the 404.
-/

/-- An event of the result stream: a data chunk, normal end, or a read error
(`enoent = true` when `err.code == 'ENOENT'`). -/
inductive SendEvent where
  | data (chunk : List Byte)
  | ended
  | error (enoent : Bool)
deriving DecidableEq, Repr

/-- The observable effects on the HTTP response. -/
structure ResState where
  statuses : List Nat
  headersSet : Bool
  body : List (List Byte)
  ended : Bool
deriving DecidableEq, Repr

/-- The `writeStarted` flag paired with the response state. -/
structure SendState where
  res : ResState
  writeStarted : Bool
deriving DecidableEq, Repr

/-- Handle one stream event, as the listeners installed by `send` do. -/
def sendEvent (st : SendState) : SendEvent → SendState
  | .data chunk =>
    if chunk.length > 0 then
      let res :=
        if st.writeStarted = false then
          { st.res with headersSet := true, body := st.res.body ++ [chunk] }
        else
          { st.res with body := st.res.body ++ [chunk] }
      { res := res, writeStarted := true }
    else
      st
  | .ended =>
    let res :=
      if st.writeStarted = false then
        { st.res with statuses := st.res.statuses ++ [204] }
      else
        st.res
    { st with res := { res with ended := true } }
  | .error enoent =>
    if st.writeStarted then
      { st with res := { st.res with ended := true } }
    else
      let res :=
        if enoent then
          { st.res with statuses := st.res.statuses ++ [404, 500] }
        else
          { st.res with statuses := st.res.statuses ++ [500] }
      { st with res := res }

/-- Run `send` over the result stream's event trace. -/
def send (events : List SendEvent) : ResState :=
  (events.foldl sendEvent ⟨⟨[], false, [], false⟩, false⟩).res

/-!
## Lemmas about the record parser
-/

/-- A separator-free buffer splits into no fields and itself as remainder. -/
theorem splitTerm_sepFree (sep : Byte) :
    ∀ z : List Byte, sep ∉ z → splitTerm sep z = ([], z) := by
  intro z
  induction z with
  | nil => intro _; rfl
  | cons b rest ih =>
    intro h
    have hb : ¬ b = sep := fun hb => h (hb ▸ List.mem_cons_self b rest)
    have hr : sep ∉ rest := fun hr => h (List.mem_cons_of_mem b hr)
    simp [splitTerm, hb, ih hr]

/-- The remainder left by `splitTerm` contains no separator. -/
theorem splitTerm_rem_sepFree (sep : Byte) :
    ∀ z : List Byte, sep ∉ (splitTerm sep z).2 := by
  intro z
  induction z with
  | nil => simp [splitTerm]
  | cons b rest ih =>
    by_cases hb : b = sep
    · simpa [splitTerm, hb] using ih
    · cases hf : (splitTerm sep rest).1 with
      | nil =>
        simp only [splitTerm, hf, if_neg hb]
        intro hmem
        rcases List.mem_cons.mp hmem with h | h
        · exact hb h.symm
        · exact ih h
      | cons f fs => simpa [splitTerm, hb, hf] using ih

/-- The scanning loop on an incomplete input equals `splitTerm`, with the
accumulated current-record bytes `cur` prepended to the first field (or to
the remainder when there is no separator at all). -/
theorem scanList_false (sep : Byte) :
    ∀ rest cur : List Byte,
      scanList sep false cur rest =
        (match (splitTerm sep rest).1 with
          | [] => ([], cur ++ (splitTerm sep rest).2)
          | f :: fs => ((cur ++ f) :: fs, (splitTerm sep rest).2)) := by
  intro rest
  induction rest with
  | nil => intro cur; simp [scanList, splitTerm]
  | cons b rest ih =>
    intro cur
    by_cases hb : b = sep
    · cases hf : (splitTerm sep rest).1 with
      | nil => simp [scanList, splitTerm, hb, ih, hf]
      | cons f fs => simp [scanList, splitTerm, hb, ih, hf]
    · cases hf : (splitTerm sep rest).1 with
      | nil => simp [scanList, splitTerm, hb, ih, hf]
      | cons f fs => simp [scanList, splitTerm, hb, ih, hf]

/-- Specialisation to an empty accumulator: the scan of a `data` event
computes exactly `splitTerm`. -/
theorem scanList_false_nil (sep : Byte) (buf : List Byte) :
    scanList sep false [] buf = splitTerm sep buf := by
  rw [scanList_false]
  cases hf : (splitTerm sep buf).1 with
  | nil => simp [hf, Prod.ext_iff]
  | cons f fs => simp [hf, Prod.ext_iff]

/-- The scanning loop of the close event on a separator-free buffer: an empty
buffer emits nothing; a nonempty buffer emits a single record consisting of
the accumulated bytes plus the buffer with its final byte removed. -/
theorem scanList_true_sepFree (sep : Byte) :
    ∀ rest cur : List Byte, sep ∉ rest →
      scanList sep true cur rest =
        (if rest = [] then ([], cur) else ([cur ++ rest.dropLast], [])) := by
  intro rest
  induction rest with
  | nil => intro cur _; simp [scanList]
  | cons b rest ih =>
    intro cur h
    have hb : ¬ b = sep := fun hb => h (hb ▸ List.mem_cons_self b rest)
    have hr : sep ∉ rest := fun hr => h (List.mem_cons_of_mem b hr)
    cases rest with
    | nil => simp [scanList, hb]
    | cons c rest' =>
      have hne : ¬ (c :: rest' = ([] : List Byte)) := by simp
      have hcond : ¬ (b = sep ∨ (true = true ∧ c :: rest' = ([] : List Byte))) := by
        simp [hb]
      rw [scanList, if_neg hcond, ih (cur ++ [b]) hr]
      simp [hne, List.dropLast_cons_of_ne_nil hne]

/-- Splitting a concatenation: the fields of `x ++ y` are the fields of `x`
followed by the fields of `x`'s remainder prepended to `y`, and likewise for
the remainder. -/
theorem splitTerm_append (sep : Byte) :
    ∀ x y : List Byte,
      splitTerm sep (x ++ y) =
        ((splitTerm sep x).1 ++ (splitTerm sep ((splitTerm sep x).2 ++ y)).1,
          (splitTerm sep ((splitTerm sep x).2 ++ y)).2) := by
  intro x y
  induction x with
  | nil => simp [splitTerm]
  | cons b x ih =>
    by_cases hb : b = sep
    · simp [splitTerm, hb, ih]
    · cases hf : (splitTerm sep x).1 with
      | nil =>
        have hx2 : (splitTerm sep (x ++ y)).1 = (splitTerm sep ((splitTerm sep x).2 ++ y)).1
            ∧ (splitTerm sep (x ++ y)).2 = (splitTerm sep ((splitTerm sep x).2 ++ y)).2 := by
          rw [ih]; simp [hf]
        cases hg : (splitTerm sep ((splitTerm sep x).2 ++ y)).1 with
        | nil =>
          simp [splitTerm, hb, hf, hx2.1, hx2.2, hg]
        | cons g gs =>
          simp [splitTerm, hb, hf, hx2.1, hx2.2, hg]
      | cons f fs =>
        simp [splitTerm, hb, hf, ih]

/-- The record accumulator of `runData` factors out of the fold. -/
theorem runData_shift (sep : Byte) :
    ∀ (cs : List (List Byte)) (p : PState × List (List Byte)),
      cs.foldl
          (fun acc c =>
            let r := append sep acc.1 (some c)
            (r.1, acc.2 ++ r.2))
          p
        = ((runData sep p.1 cs).1, p.2 ++ (runData sep p.1 cs).2) := by
  intro cs
  induction cs with
  | nil => intro p; simp [runData]
  | cons c cs ih =>
    intro p
    simp only [runData, List.foldl_cons]
    rw [ih, ih]
    simp

/-- Processing a chunk list from a separator-free buffer: the scheduled
records are the separator-terminated fields of the concatenation and the
final buffer is its remainder. -/
theorem runData_closed (sep : Byte) :
    ∀ (chunks : List (List Byte)) (B : List Byte), sep ∉ B →
      runData sep ⟨B, true⟩ chunks
        = (⟨(splitTerm sep (B ++ chunks.flatten)).2, true⟩,
            (splitTerm sep (B ++ chunks.flatten)).1) := by
  intro chunks
  induction chunks with
  | nil =>
    intro B hB
    simp [runData, splitTerm_sepFree sep B hB]
  | cons c cs ih =>
    intro B hB
    have hstep :
        append sep ⟨B, true⟩ (some c)
          = (⟨(splitTerm sep (B ++ c)).2, true⟩, (splitTerm sep (B ++ c)).1) := by
      simp [append, scanList_false_nil]
    have hrem : sep ∉ (splitTerm sep (B ++ c)).2 := splitTerm_rem_sepFree sep (B ++ c)
    have hsplit := splitTerm_append sep (B ++ c) cs.flatten
    simp only [runData, List.foldl_cons, hstep]
    rw [runData_shift]
    rw [show (runData sep (⟨(splitTerm sep (B ++ c)).2, true⟩ : PState) cs) = _ from
      ih (splitTerm sep (B ++ c)).2 hrem]
    simp only [List.flatten_cons, ← List.append_assoc]
    rw [hsplit]
    simp

/-- `parseRecords` computes `parseSpec` of the concatenated input. -/
theorem parseRecords_eq_parseSpec (sep : Byte) (chunks : List (List Byte)) :
    parseRecords sep chunks = parseSpec sep chunks.flatten := by
  have hrun := runData_closed sep chunks [] (by simp)
  have hrem : sep ∉ (splitTerm sep chunks.flatten).2 :=
    splitTerm_rem_sepFree sep chunks.flatten
  simp only [List.nil_append] at hrun
  simp only [parseRecords, hrun, parseSpec]
  simp only [append, Option.getD_none, Option.isNone_none, List.append_nil]
  rw [scanList_true_sepFree sep (splitTerm sep chunks.flatten).2 [] hrem]
  by_cases h : (splitTerm sep chunks.flatten).2 = []
  · simp [h]
  · simp [h]

/-- Driving the tee with a chunk list appends the concatenated bytes to the
file and the chunk list to the downstream queue. -/
theorem runTee_foldl :
    ∀ (ws : List (List Byte)) (st : TeeState),
      ws.foldl teeWrite st
        = ⟨st.fileBytes ++ ws.flatten, st.downstream ++ ws, st.fileClosed⟩ := by
  intro ws
  induction ws with
  | nil => intro st; simp
  | cons w ws ih =>
    intro st
    simp [List.foldl_cons, teeWrite, ih, List.append_assoc]

/-!
## Claim theorems
-/

/-- C1: the claim states that parsing `"a,b,c"` with separator `,` calls
`process` exactly on the records `"a"`, `"b"`, `"c"` and that an empty input
yields zero records.  Evaluating the embedded parser at the failing input:
the records are `"a"`, `"b"`, `""` — the trailing unterminated record is
emitted with its last byte dropped, because `buffer.slice(i, j)` with
`j == end` excludes the final byte — while the empty-input half does hold. -/
theorem fieldParser_trailing_record_eval :
    parseRecords 0x2C [[0x61, 0x2C, 0x62, 0x2C, 0x63]] = [[0x61], [0x62], []] ∧
    parseRecords 0x2C [[0x61, 0x2C, 0x62, 0x2C, 0x63]] ≠ [[0x61], [0x62], [0x63]] ∧
    parseRecords 0x2C [] = [] := by
  refine ⟨by decide, by decide, by decide⟩

/-- C4: for every byte sequence and every way of splitting it into delivered
chunks, `fieldParser` produces the same ordered sequence of records as when
the whole sequence is delivered as a single chunk. -/
theorem fieldParser_chunk_invariance (sep : Byte) (chunks : List (List Byte)) :
    parseRecords sep chunks = parseRecords sep [chunks.flatten] := by
  rw [parseRecords_eq_parseSpec, parseRecords_eq_parseSpec]
  simp

/-- C3: the claim states that when `process` fails on record 2 of a 5-record
input, `process` is called exactly twice and the returned promise rejects
with that error.  Evaluating the embedded parser on the 5-record input
`"a,b,c,d,e,"` delivered as one chunk: a synchronous throw on record 2 leads
to `process` being called on all five records (the already-chained
continuations recover from the caught error) although the promise does
reject; an asynchronous rejection on record 2 leads to exactly two calls,
but the promise never settles (the rejection is never transferred to the
outer promise: `resolve` and the queued `reject` are fulfilment-only
continuations of a rejected chain). -/
theorem fieldParser_error_short_circuit_eval :
    ((runParser 0x2C (fun r => if r = [0x62] then .sthrow 7 else .ok)
        [[0x61, 0x2C, 0x62, 0x2C, 0x63, 0x2C, 0x64, 0x2C, 0x65, 0x2C]]).calls.length = 5 ∧
      (runParser 0x2C (fun r => if r = [0x62] then .sthrow 7 else .ok)
        [[0x61, 0x2C, 0x62, 0x2C, 0x63, 0x2C, 0x64, 0x2C, 0x65, 0x2C]]).outer
          = some (some 7)) ∧
    ((runParser 0x2C (fun r => if r = [0x62] then .areject 7 else .ok)
        [[0x61, 0x2C, 0x62, 0x2C, 0x63, 0x2C, 0x64, 0x2C, 0x65, 0x2C]]).calls
          = [[0x61], [0x62]] ∧
      (runParser 0x2C (fun r => if r = [0x62] then .areject 7 else .ok)
        [[0x61, 0x2C, 0x62, 0x2C, 0x63, 0x2C, 0x64, 0x2C, 0x65, 0x2C]]).outer
          = none) := by
  refine ⟨⟨by decide, by decide⟩, by decide, by decide⟩

/-- C2: a `StepResult` whose resolved cache file exists returns a read stream
on that file from `readable()`, invoking neither its own step function nor
any upstream step's function; in particular, in a two-step pipeline whose
second step's cache file is present, the first step's function is never
called. -/
theorem stepResult_cache_hit_short_circuit {Vars : Type} (fs : String → Bool)
    (resolve : String → Vars → String) (vars : Vars) (p : String)
    (hfs : fs (resolve p vars) = true) :
    (∀ (f : Nat) (prev : Option Step),
        Step.readableT fs resolve vars (.mk f (some p) prev)
          = (.fileRead (resolve p vars), [])) ∧
    (∀ (f1 f2 : Nat) (cp1 : Option String),
        Step.readableT fs resolve vars (.mk f2 (some p) (some (.mk f1 cp1 none)))
          = (.fileRead (resolve p vars), [])) := by
  constructor
  · intro f prev
    rw [Step.readableT.eq_def]
    simp [hfs]
  · intro f1 f2 cp1
    rw [Step.readableT.eq_def]
    simp [hfs]

/-- C2 witness: a concrete two-step pipeline with the second step's cache
file present. -/
theorem stepResult_cache_hit_short_circuit_witness :
    @Step.readableT Unit (fun _ => true) (fun t _ => t) ()
        (.mk 2 (some "cache.json") (some (.mk 1 none none)))
      = (.fileRead "cache.json", []) :=
  (stepResult_cache_hit_short_circuit (fun _ => true) (fun t _ => t) ()
    "cache.json" rfl).2 1 2 none

/-- C5: after the tee stream of a cache-miss step with a configured cache
path is fully drained, the cache file's bytes equal the concatenation, in
order, of the chunks observed by the downstream reader, and those chunks are
exactly the ones the step function wrote, with no added framing. -/
theorem stepResult_tee_correctness (ws : List (List Byte)) :
    (runTee ws).fileBytes = (runTee ws).downstream.flatten ∧
    (runTee ws).downstream = ws ∧
    (runTee ws).fileBytes = ws.flatten ∧
    (runTee ws).fileClosed = true := by
  simp [runTee, teeEnd, runTee_foldl]

/-- C6: the transformer's serialization policy: an `undefined` result writes
nothing; a string result is written verbatim plus a newline; a non-string
result is JSON-encoded plus a newline; under `multiValue` an array result has
each element serialized independently by the same string/JSON rule on its own
line (`["x", {"y":1}]` produces the two lines `x` and `{"y":1}`), while a
non-array result falls back to single-value serialization. -/
theorem recordTransformer_serialization :
    (∀ mv : Bool, writeResult mv .undef = []) ∧
    (∀ (mv : Bool) (s : String), writeResult mv (.str s) = [s, "\n"]) ∧
    (∀ v : JSVal, v.isUndef = false → v.isString = false →
        writeResult false v = [stringify v, "\n"]) ∧
    (∀ v : JSVal, v.isUndef = false → v.isArray = false →
        writeResult true v = writeResult false v) ∧
    (∀ xs : List JSVal,
        writeResult true (.arr xs)
          = (xs.map
              (fun item => if item.isUndef then [] else [strOrJson item, "\n"])).flatten) ∧
    writeResult true (.arr [.str "x", .obj [("y", .num 1)]])
      = ["x", "\n", "\x7b\"y\":1\x7d", "\n"] := by
  refine ⟨?_, ?_, ?_, ?_, ?_, ?_⟩
  · intro mv; rfl
  · intro mv s
    cases mv <;> rfl
  · intro v hu hs
    cases v <;> simp_all [writeResult, strOrJson, JSVal.isUndef, JSVal.isString]
  · intro v hu ha
    cases v <;> simp_all [writeResult, JSVal.isUndef, JSVal.isArray]
  · intro xs; rfl
  · decide

/-- C6 witness: the hypotheses of the non-string and fall-back conjuncts
discharged at the concrete value `5`. -/
theorem recordTransformer_serialization_witness :
    writeResult false (.num 5) = [stringify (.num 5), "\n"] ∧
    writeResult true (.num 5) = writeResult false (.num 5) :=
  ⟨recordTransformer_serialization.2.2.1 (.num 5) rfl rfl,
    recordTransformer_serialization.2.2.2.1 (.num 5) rfl rfl⟩

/-- C10: under `multiValue`, every `undefined` element of an array result is
skipped entirely — no line is written for it — while every other element is
serialized on its own line by the string/JSON rule. -/
theorem recordTransformer_multiValue_undefined_skip :
    (∀ xs : List JSVal,
        writeResult true (.arr xs)
          = ((xs.filter (fun item => !item.isUndef)).map
              (fun item => [strOrJson item, "\n"])).flatten) ∧
    writeResult true (.arr [.undef, .str "a", .undef, .num 2])
      = ["a", "\n", "2", "\n"] := by
  constructor
  · intro xs
    show (xs.map
        (fun item => if item.isUndef then [] else [strOrJson item, "\n"])).flatten = _
    induction xs with
    | nil => rfl
    | cons x xs ih =>
      cases hx : x.isUndef <;> simp [List.filter_cons, hx, ih]
  · decide

/-- C7: hook composition: with zero hooks registered under a key the composed
callable returns its value argument unchanged; with exactly one hook it is
that hook itself; with hooks `h1` then `h2` registered in that order the
composite applied to `(value, vars)` is `h2 (h1 value vars) vars`, each hook
receiving the same `vars`; and `registerHook` appends to the ordered list
under the key. -/
theorem getCallHooks_composition {Value Vars : Type} (reg : Registry Value Vars)
    (ns stage name : String) :
    (∀ h, lookupHooks (registerHook reg ns stage name h) ns (hookId stage name)
        = lookupHooks reg ns (hookId stage name) ++ [h]) ∧
    (lookupHooks reg ns (hookId stage name) = [] →
        ∀ value vars, getCallHooks reg ns stage name value vars = value) ∧
    (∀ h, lookupHooks reg ns (hookId stage name) = [h] →
        getCallHooks reg ns stage name = h) ∧
    (∀ h1 h2, lookupHooks reg ns (hookId stage name) = [h1, h2] →
        ∀ value vars,
          getCallHooks reg ns stage name value vars = h2 (h1 value vars) vars) := by
  refine ⟨?_, ?_, ?_, ?_⟩
  · intro h
    simp [lookupHooks, registerHook, List.filter_append]
  · intro hl value vars
    simp [getCallHooks, hl]
  · intro h hl
    simp [getCallHooks, hl]
  · intro h1 h2 hl value vars
    simp [getCallHooks, hl]

/-- C7 witness: concrete registrations of `h1 = (+)` then `h2 = (*)` under
one key, starting from the empty registry. -/
theorem getCallHooks_composition_witness :
    getCallHooks ([] : Registry Nat Nat) "ns" "pre" "op" 3 4 = 3 ∧
    getCallHooks
        (registerHook ([] : Registry Nat Nat) "ns" "pre" "op" (fun v w => v + w))
        "ns" "pre" "op"
      = (fun v w => v + w) ∧
    getCallHooks
        (registerHook
          (registerHook ([] : Registry Nat Nat) "ns" "pre" "op" (fun v w => v + w))
          "ns" "pre" "op" (fun v w => v * w))
        "ns" "pre" "op" 3 4
      = (3 + 4) * 4 :=
  ⟨(getCallHooks_composition ([] : Registry Nat Nat) "ns" "pre" "op").2.1 rfl 3 4,
    (getCallHooks_composition
        (registerHook ([] : Registry Nat Nat) "ns" "pre" "op" (fun v w => v + w))
        "ns" "pre" "op").2.2.1 (fun v w => v + w) rfl,
    (getCallHooks_composition
        (registerHook
          (registerHook ([] : Registry Nat Nat) "ns" "pre" "op" (fun v w => v + w))
          "ns" "pre" "op" (fun v w => v * w))
        "ns" "pre" "op").2.2.2 (fun v w => v + w) (fun v w => v * w) rfl 3 4⟩

/-- C8: the claim states that in `send` a read error before any bytes were
sent emits exactly one 404 when the error is a missing-file error and exactly
one 500 otherwise.  Evaluating the embedded `send`: an `ENOENT` error before
any bytes emits 404 followed by 500 (the 404 branch lacks a `return` and
falls through); the remaining clauses of the claim do hold — a non-`ENOENT`
error emits exactly 500, an error after bytes were sent only terminates the
response, zero total bytes produce a 204, and headers are emitted on the
first non-empty chunk. -/
theorem stepResult_send_enoent_eval :
    (send [.error true]).statuses = [404, 500] ∧
    (send [.error false]).statuses = [500] ∧
    (send [.data [1], .error true]).statuses = [] ∧
    (send [.data [1], .error true]).ended = true ∧
    (send [.ended]).statuses = [204] ∧
    send [.data [], .data [1, 2], .ended]
      = ⟨[], true, [[1, 2]], true⟩ := by
  refine ⟨by decide, by decide, by decide, by decide, by decide, by decide⟩

/-- C9 counterexample: with no `separator` option, `recordTransformer` drives
the record parser with `0x0`, not the newline byte `0x0A`; on the input
`"a\nb"` the two separators give observably different record sequences. -/
theorem recordTransformer_default_separator_counterexample :
    recordTransformerSep none = 0x0 ∧
    recordTransformerSep none ≠ NEWLINE ∧
    recordTransformerParse none [[0x61, 0x0A, 0x62]] = [[0x61, 0x0A]] ∧
    parseRecords NEWLINE [[0x61, 0x0A, 0x62]] = [[0x61], []] := by
  refine ⟨by decide, by decide, by decide, by decide⟩

/-- C9 amended: with no `separator` option `recordTransformer` drives the
record parser with the NUL byte `0x00`; the newline separator is what
`lineTransformer` (and through it `jsonlTransformer`) passes explicitly. -/
theorem recordTransformer_default_separator_amended :
    recordTransformerSep none = 0x00 ∧
    lineTransformerSeparatorArg = some NEWLINE ∧
    recordTransformerSep lineTransformerSeparatorArg = NEWLINE := by
  refine ⟨by decide, by decide, by decide⟩
